import Mathlib

/-!
Verification of the `httpclient` repository's seekable HTTP-backed byte stream
(`HttpFile` in the Go source): a shallow embedding of `HttpFile.do`,
`OpenHttpFile`, `getContentRange`, `readAt`, `readFromBuffer`, `ReadAt`,
`Read`, `Close` and `Seek`, together with theorems settling the spec claims.

The HTTP transport is modelled as an oracle `tr : Nat → Resp` giving the
response to the i-th request issued in one logical call of `HttpFile.do`,
and as a range-fetch function `fetch : Int → Int → FetchRes` at the
`readAt` layer.  A static well-behaved origin is modelled by `staticServer`
(S3-style range semantics: 416 whenever the range start is at or past the
end of the resource).  Loops in the source (`for` in `HttpFile.do`,
the read loop in `readFromBuffer`) are embedded with explicit fuel.
-/

set_option autoImplicit false

namespace Httpclient

/-- Error values distinguished by the Go code: `io.EOF`, `io.ErrUnexpectedEOF`,
`os.ErrInvalid`, `os.ErrNotExist`, transport-level errors (`url.Error`,
including the `NoRedirect` sentinel), `HttpFileError` for an unexpected
status, the `fmt.Sscanf` parse error of `getContentRange`, and the
`panic` at the end of `readFromBuffer`. -/
inductive Err where
  | eof
  | unexpectedEOF
  | errInvalid
  | notExist
  | transport
  | noRedirect
  | unexpectedStatus (code : Nat)
  | scanErr
  | panicked
  deriving DecidableEq, Repr

/-- One HTTP response as observed by `HttpFile.do` (source lines 196-261):
status code, the `Location`, `X-Cache` and `X-AMZ-Request-ID` headers, the
`Content-Range` header, `ContentLength`, the body bytes (as characters),
`redir` meaning `client.Do` returned the response together with a
`url.Error` wrapping the `NoRedirect` sentinel (the client is configured
with `CheckRedirect` returning `NoRedirect`), and `fail` meaning
`client.Do` returned some other non-nil error. -/
structure Resp where
  status : Nat
  location : String
  xCache : String
  xAmzId : String
  contentRange : String
  contentLength : Int
  body : List Char
  redir : Bool
  fail : Bool
  deriving DecidableEq, Repr

/-- Result of one logical `HttpFile.do` call: the response handed back to
the caller, the accompanying error (`none` when `err == nil`), the value of
`f.Url` afterwards, and the index of the next unused transport response. -/
structure DoRes where
  resp : Resp
  err : Option Err
  url : String
  next : Nat
  deriving DecidableEq, Repr

/-- Observable events of one logical `HttpFile.do` call: a request issued
against a URL, a redirect substitution (`f.Url = Location`), a
`time.Sleep(HttpFileRetryWait)` for CDN throttling, and an expiry-driven
reset (`f.Url = f.origUrl`). -/
inductive Ev where
  | attempt (url : String)
  | redirSub (loc : String)
  | sleepWait
  | expiryReset
  deriving DecidableEq, Repr

/-- Source line 150: `var HttpFileRetries = 10`. -/
def HttpFileRetries : Nat := 10

/-- Source line 151: `var HttpFileRetryWait = 60 * time.Second` (in seconds). -/
def HttpFileRetryWait : Nat := 60

/-- The `X-Cache` value marking CDN throttling, source line 231. -/
def cloudfrontMarker : String := "Error from cloudfront"

/-- The signed-URL-expiry body marker, source line 249. -/
def expiredMarker : List Char := "<Message>Request has expired</Message>".toList

/-- Whether `needle` occurs at the head of `hay`. -/
def leadsWith : List Char → List Char → Bool
  | [], _ => true
  | _ :: _, [] => false
  | a :: as, b :: bs => a = b && leadsWith as bs

/-- Model of `strings.Contains` on character lists. -/
def containsSub (needle : List Char) : List Char → Bool
  | [] => leadsWith needle []
  | b :: bs => leadsWith needle (b :: bs) || containsSub needle bs

/-- Shallow embedding of `HttpFile.do` (source lines 196-261).  `R` is the
global `HttpFileRetries`, `tr` the transport oracle, `orig` is `f.origUrl`,
`fuel` bounds the recursion, `k` indexes the next transport response, `url`
is `f.Url` and `redirect`/`retry` are the local variables of the same
names.  Returns the event trace and (unless fuel runs out, which the real
code would turn into an unbounded loop) the call's result.

Fidelity note: in the Go source the label `retry_redir:` sits *before* the
declarations `redirect := false` and `retry := 0`, so every `goto
retry_redir` re-executes those declarations and re-initialises both
variables; the embedding therefore restarts with `redirect := false` and
`retry := 0` after a redirect substitution and after an expiry reset. -/
def doRun (R : Nat) (tr : Nat → Resp) (orig : String) :
    Nat → Nat → String → Bool → Nat → List Ev × Option DoRes
  | 0, _, _, _, _ => ([], none)
  | fuel + 1, k, url, redirect, retry =>
    let r := tr k
    if r.redir then
      -- `if redirect { return res, err }` -- `err` is the NoRedirect url.Error
      if redirect then
        ([Ev.attempt url], some ⟨r, some Err.noRedirect, url, k + 1⟩)
      else
        -- `redirect = true; f.Url = res.Header.Get("Location"); goto retry_redir`
        let rest := doRun R tr orig fuel (k + 1) r.location false 0
        (Ev.attempt url :: Ev.redirSub r.location :: rest.1, rest.2)
    else if r.fail then
      -- `if err != nil { return res, err }`
      ([Ev.attempt url], some ⟨r, some Err.transport, url, k + 1⟩)
    else if r.status = 403 ∧ r.xCache = cloudfrontMarker then
      -- `retry++; if retry < HttpFileRetries { time.Sleep(...); continue }`
      if retry + 1 < R then
        let rest := doRun R tr orig fuel (k + 1) url redirect (retry + 1)
        (Ev.attempt url :: Ev.sleepWait :: rest.1, rest.2)
      else
        ([Ev.attempt url], some ⟨r, none, url, k + 1⟩)
    else if r.status = 403 ∧ r.xAmzId ≠ "" ∧ r.body ≠ [] ∧
        containsSub expiredMarker (r.body.take 256) = true ∧ url ≠ orig then
      -- body read succeeds (`err == nil`, modelled as a nonempty body whose
      -- first 256 bytes are inspected), marker found, URL was substituted:
      -- `f.Url = f.origUrl; goto retry_redir`
      let rest := doRun R tr orig fuel (k + 1) orig false 0
      (Ev.attempt url :: Ev.expiryReset :: rest.1, rest.2)
    else
      -- `return res, err` with `err == nil`
      ([Ev.attempt url], some ⟨r, none, url, k + 1⟩)

/-- A plain response with the given status and no special headers. -/
def plainResp (st : Nat) : Resp :=
  { status := st, location := "", xCache := "", xAmzId := "", contentRange := "",
    contentLength := 0, body := [], redir := false, fail := false }

/-- A redirect response carrying a `Location` header. -/
def redirResp (loc : String) : Resp :=
  { plainResp 302 with location := loc, redir := true }

/-- Transport for the double-redirect scenario: redirect to `L1`, then
redirect to `L2`, then 206. -/
def trC1 : Nat → Resp
  | 0 => redirResp "L1"
  | 1 => redirResp "L2"
  | _ => plainResp 206

/-- Claim C1, evaluation at the failing input: the server redirects on the
first two requests and answers 206 on the third.  `HttpFile.do` performs
two redirect substitutions and returns the 206 fetched from `L2`: the
second redirect response is followed, not returned to the caller as-is,
because `goto retry_redir` re-initialises `redirect := false`. -/
theorem c1_run :
    doRun 10 trC1 "orig" 5 0 "orig" false 0 =
      ([Ev.attempt "orig", Ev.redirSub "L1", Ev.attempt "L1",
        Ev.redirSub "L2", Ev.attempt "L2"],
        some ⟨plainResp 206, none, "L2", 3⟩) := by
  decide

/-- A response that triggers the CDN-throttling branch (source lines
230-240): a 403 whose `X-Cache` header is the cloudfront marker, observed
without a transport error or redirect. -/
def Throttled (r : Resp) : Prop :=
  r.redir = false ∧ r.fail = false ∧ r.status = 403 ∧ r.xCache = cloudfrontMarker

instance (r : Resp) : Decidable (Throttled r) := by
  unfold Throttled; infer_instance

/-- A response that reaches the final `return res, err` untouched: no
redirect, no transport failure, not a 403. -/
def Plain (r : Resp) : Prop :=
  r.redir = false ∧ r.fail = false ∧ r.status ≠ 403

instance (r : Resp) : Decidable (Plain r) := by
  unfold Plain; infer_instance

/-- Event trace of `d` throttled attempts followed by one more attempt:
`attempt, sleep, attempt, sleep, ..., attempt`. -/
def throttleEvs (url : String) : Nat → List Ev
  | 0 => [Ev.attempt url]
  | d + 1 => Ev.attempt url :: Ev.sleepWait :: throttleEvs url d

theorem throttleEvs_count_sleep (url : String) :
    ∀ d, (throttleEvs url d).count Ev.sleepWait = d := by
  intro d
  induction d with
  | zero => simp [throttleEvs]
  | succ d ih => simp [throttleEvs, ih]

/-- Unfolding of `doRun` on a throttled response with retry budget left. -/
theorem doRun_throttle_step (R : Nat) (tr : Nat → Resp) (orig : String)
    (fuel k retry : Nat) (url : String) (redirect : Bool)
    (ht : Throttled (tr k)) (hr : retry + 1 < R) :
    doRun R tr orig (fuel + 1) k url redirect retry =
      (Ev.attempt url :: Ev.sleepWait ::
        (doRun R tr orig fuel (k + 1) url redirect (retry + 1)).1,
        (doRun R tr orig fuel (k + 1) url redirect (retry + 1)).2) := by
  obtain ⟨h1, h2, h3, h4⟩ := ht
  simp [doRun, h1, h2, h3, h4, hr]

/-- Unfolding of `doRun` on a throttled response with the budget exhausted. -/
theorem doRun_throttle_stop (R : Nat) (tr : Nat → Resp) (orig : String)
    (fuel k retry : Nat) (url : String) (redirect : Bool)
    (ht : Throttled (tr k)) (hr : ¬retry + 1 < R) :
    doRun R tr orig (fuel + 1) k url redirect retry =
      ([Ev.attempt url], some ⟨tr k, none, url, k + 1⟩) := by
  obtain ⟨h1, h2, h3, h4⟩ := ht
  simp [doRun, h1, h2, h3, h4, hr]

/-- Unfolding of `doRun` on a plain final response. -/
theorem doRun_plain_step (R : Nat) (tr : Nat → Resp) (orig : String)
    (fuel k retry : Nat) (url : String) (redirect : Bool)
    (hp : Plain (tr k)) :
    doRun R tr orig (fuel + 1) k url redirect retry =
      ([Ev.attempt url], some ⟨tr k, none, url, k + 1⟩) := by
  obtain ⟨h1, h2, h3⟩ := hp
  simp [doRun, h1, h2, h3]

/-- A run of `d` throttled attempts followed by a plain response returns
that response after `d` sleeps. -/
theorem doRun_throttle_then_plain (R : Nat) (tr : Nat → Resp) (orig : String) :
    ∀ (d k retry fuel : Nat) (url : String) (redirect : Bool),
    (∀ i, i < d → Throttled (tr (k + i))) → Plain (tr (k + d)) →
    retry + d < R → d < fuel →
    doRun R tr orig fuel k url redirect retry =
      (throttleEvs url d, some ⟨tr (k + d), none, url, k + d + 1⟩) := by
  intro d
  induction d with
  | zero =>
    intro k retry fuel url redirect _ hp _ hfuel
    obtain ⟨fuel, rfl⟩ := Nat.exists_eq_succ_of_ne_zero (Nat.pos_iff_ne_zero.mp hfuel)
    simpa [throttleEvs] using doRun_plain_step R tr orig fuel k retry url redirect hp
  | succ d ih =>
    intro k retry fuel url redirect hth hp hbud hfuel
    obtain ⟨fuel, rfl⟩ := Nat.exists_eq_succ_of_ne_zero
      (Nat.pos_iff_ne_zero.mp (Nat.lt_of_le_of_lt (Nat.zero_le _) hfuel))
    rw [doRun_throttle_step R tr orig fuel k retry url redirect
      (by simpa using hth 0 (Nat.succ_pos d)) (by omega)]
    rw [ih (k + 1) (retry + 1) fuel url redirect
      (fun i hi => by
        have h := hth (i + 1) (by omega)
        rwa [show k + (i + 1) = k + 1 + i by omega] at h)
      (by rwa [show k + (d + 1) = k + 1 + d by omega] at hp)
      (by omega) (by omega)]
    rw [show k + 1 + d = k + (d + 1) by omega]
    rfl

/-- A run in which every attempt up to the retry budget is throttled stops
after `d + 1` attempts and `d` sleeps, where `retry + d + 1 = R`, and
returns the last throttled 403. -/
theorem doRun_throttle_exhaust (R : Nat) (tr : Nat → Resp) (orig : String) :
    ∀ (d k retry fuel : Nat) (url : String) (redirect : Bool),
    (∀ i, i ≤ d → Throttled (tr (k + i))) →
    retry + d + 1 = R → d < fuel →
    doRun R tr orig fuel k url redirect retry =
      (throttleEvs url d, some ⟨tr (k + d), none, url, k + d + 1⟩) := by
  intro d
  induction d with
  | zero =>
    intro k retry fuel url redirect hth hbud hfuel
    obtain ⟨fuel, rfl⟩ := Nat.exists_eq_succ_of_ne_zero (Nat.pos_iff_ne_zero.mp hfuel)
    simpa [throttleEvs] using doRun_throttle_stop R tr orig fuel k retry url redirect
      (by simpa using hth 0 (Nat.le_refl 0)) (by omega)
  | succ d ih =>
    intro k retry fuel url redirect hth hbud hfuel
    obtain ⟨fuel, rfl⟩ := Nat.exists_eq_succ_of_ne_zero
      (Nat.pos_iff_ne_zero.mp (Nat.lt_of_le_of_lt (Nat.zero_le _) hfuel))
    rw [doRun_throttle_step R tr orig fuel k retry url redirect
      (by simpa using hth 0 (Nat.zero_le _)) (by omega)]
    rw [ih (k + 1) (retry + 1) fuel url redirect
      (fun i hi => by
        have h := hth (i + 1) (by omega)
        rwa [show k + (i + 1) = k + 1 + i by omega] at h)
      (by omega) (by omega)]
    rw [show k + 1 + d = k + (d + 1) by omega]
    rfl

/-- Claim C5: the CDN-throttling retry protocol of `HttpFile.do`.  The
retry budget and wait have their documented defaults (`HttpFileRetries =
10`, `HttpFileRetryWait = 60` seconds); when the first `k` responses are
throttling 403s and the `k+1`-st is a plain final response with `k` inside
the budget, the call returns that response after exactly `k` sleeps of the
fixed wait; and when every response up to the budget is a throttling 403,
the call gives up after `R` attempts and `R - 1` sleeps, returning the
last 403. -/
theorem c5_throttle_budget :
    HttpFileRetries = 10 ∧ HttpFileRetryWait = 60 ∧
    (∀ (R : Nat) (tr : Nat → Resp) (orig url : String) (redirect : Bool) (k fuel : Nat),
      (∀ i, i < k → Throttled (tr i)) → Plain (tr k) → k < R → k < fuel →
      doRun R tr orig fuel 0 url redirect 0 =
        (throttleEvs url k, some ⟨tr k, none, url, k + 1⟩) ∧
      (throttleEvs url k).count Ev.sleepWait = k) ∧
    (∀ (R : Nat) (tr : Nat → Resp) (orig url : String) (redirect : Bool) (fuel : Nat),
      (∀ i, i < R → Throttled (tr i)) → 0 < R → R ≤ fuel →
      doRun R tr orig fuel 0 url redirect 0 =
        (throttleEvs url (R - 1), some ⟨tr (R - 1), none, url, R⟩) ∧
      (throttleEvs url (R - 1)).count Ev.sleepWait = R - 1) := by
  refine ⟨rfl, rfl, ?_, ?_⟩
  · intro R tr orig url redirect k fuel hth hp hkR hkf
    refine ⟨?_, throttleEvs_count_sleep url k⟩
    simpa using doRun_throttle_then_plain R tr orig k 0 0 fuel url redirect
      (by simpa using hth) (by simpa using hp) (by omega) hkf
  · intro R tr orig url redirect fuel hth hR hfuel
    refine ⟨?_, throttleEvs_count_sleep url (R - 1)⟩
    have h := doRun_throttle_exhaust R tr orig (R - 1) 0 0 fuel url redirect
      (fun i hi => by simpa using hth i (by omega)) (by omega) (by omega)
    simpa [Nat.sub_add_cancel hR] using h

/-- Transport for the claim's concrete throttling scenario: CDN-throttling
403 on the first three attempts, 206 on the fourth. -/
def trC5 : Nat → Resp
  | 0 | 1 | 2 => { plainResp 403 with xCache := cloudfrontMarker }
  | _ => plainResp 206

/-- Witness for C5: with the default budget of 10, a source throttled on
the first 3 attempts and returning 206 on the 4th succeeds after exactly
3 waits. -/
theorem c5_throttle_budget_witness :
    doRun 10 trC5 "u" 5 0 "u" false 0 =
      (throttleEvs "u" 3, some ⟨plainResp 206, none, "u", 4⟩) ∧
    (throttleEvs "u" 3).count Ev.sleepWait = 3 := by
  have h := c5_throttle_budget.2.2.1 10 trC5 "u" "u" false 3 5
    (by intro i hi; interval_cases i <;> exact ⟨rfl, rfl, rfl, rfl⟩)
    ⟨rfl, rfl, by decide⟩ (by decide) (by decide)
  exact h

/-- No `expiryReset` event occurs before the first `redirSub` event. -/
def noResetBeforeRedir : List Ev → Bool
  | [] => true
  | Ev.redirSub _ :: _ => true
  | Ev.expiryReset :: _ => false
  | _ :: t => noResetBeforeRedir t

/-- Every `expiryReset` event is separated from the next `expiryReset` by
at least one `redirSub` event. -/
def resetsSeparated : List Ev → Bool
  | [] => true
  | Ev.expiryReset :: t => noResetBeforeRedir t && resetsSeparated t
  | _ :: t => resetsSeparated t

@[simp] theorem nrbr_nil : noResetBeforeRedir [] = true := rfl

@[simp] theorem nrbr_cons_attempt (u : String) (l : List Ev) :
    noResetBeforeRedir (Ev.attempt u :: l) = noResetBeforeRedir l := rfl

@[simp] theorem nrbr_cons_sleep (l : List Ev) :
    noResetBeforeRedir (Ev.sleepWait :: l) = noResetBeforeRedir l := rfl

@[simp] theorem nrbr_cons_redirSub (u : String) (l : List Ev) :
    noResetBeforeRedir (Ev.redirSub u :: l) = true := rfl

@[simp] theorem rs_nil : resetsSeparated [] = true := rfl

@[simp] theorem rs_cons_attempt (u : String) (l : List Ev) :
    resetsSeparated (Ev.attempt u :: l) = resetsSeparated l := rfl

@[simp] theorem rs_cons_sleep (l : List Ev) :
    resetsSeparated (Ev.sleepWait :: l) = resetsSeparated l := rfl

@[simp] theorem rs_cons_redirSub (u : String) (l : List Ev) :
    resetsSeparated (Ev.redirSub u :: l) = resetsSeparated l := rfl

@[simp] theorem rs_cons_reset (l : List Ev) :
    resetsSeparated (Ev.expiryReset :: l) =
      (noResetBeforeRedir l && resetsSeparated l) := rfl

/-- Starting from `f.Url = f.origUrl`, a run of `HttpFile.do` emits no
expiry reset before it first substitutes a redirect: the expiry branch
requires `f.Url != f.origUrl`. -/
theorem nrbr_doRun (R : Nat) (tr : Nat → Resp) (orig : String) :
    ∀ (fuel k retry : Nat) (redirect : Bool),
    noResetBeforeRedir (doRun R tr orig fuel k orig redirect retry).1 = true := by
  intro fuel
  induction fuel with
  | zero => intro k retry redirect; rfl
  | succ fuel ih =>
    intro k retry redirect
    simp only [doRun]
    split
    · split
      · simp
      · simp
    · split
      · simp
      · split
        · split
          · simpa using ih (k + 1) (retry + 1) redirect
          · simp
        · split
          · rename_i h
            exact absurd rfl h.2.2.2.2
          · simp

/-- In every run of `HttpFile.do`, two expiry-driven resets are always
separated by a redirect substitution. -/
theorem rs_doRun (R : Nat) (tr : Nat → Resp) (orig : String) :
    ∀ (fuel k retry : Nat) (url : String) (redirect : Bool),
    resetsSeparated (doRun R tr orig fuel k url redirect retry).1 = true := by
  intro fuel
  induction fuel with
  | zero => intro k retry url redirect; rfl
  | succ fuel ih =>
    intro k retry url redirect
    simp only [doRun]
    split
    · split
      · simp
      · simpa using ih (k + 1) 0 _ false
    · split
      · simp
      · split
        · split
          · simpa using ih (k + 1) (retry + 1) url redirect
          · simp
        · split
          · simp only [rs_cons_attempt, rs_cons_reset]
            rw [nrbr_doRun R tr orig fuel (k + 1) 0 false,
              ih (k + 1) 0 orig false]
            rfl
          · simp

/-- A 403 carrying `X-AMZ-Request-ID` whose body is the expiry message. -/
def expiredResp : Resp :=
  { plainResp 403 with xAmzId := "amz-1", body := expiredMarker }

/-- A 403 with the expiry message in the body but no `X-AMZ-Request-ID`
header. -/
def expiredNoAmz : Resp := { plainResp 403 with body := expiredMarker }

/-- Transport on which the expiry reset fires twice in one logical call:
redirect to `A`, expired 403 at `A`, redirect to `B`, expired 403 at `B`,
then 206. -/
def trC6 : Nat → Resp
  | 0 => redirResp "A"
  | 1 => expiredResp
  | 2 => redirResp "B"
  | 3 => expiredResp
  | _ => plainResp 206

/-- Transport on which the body carries the expiry marker and the URL was
substituted, but the `X-AMZ-Request-ID` header is empty. -/
def trC6b : Nat → Resp
  | 0 => redirResp "A"
  | 1 => expiredNoAmz
  | _ => plainResp 206

/-- Claim C6, counterexample: (i) on `trC6` the expiry-driven retry fires
twice in a single logical call, contradicting "at most once per logical
call"; (ii) on `trC6b` the 403 body contains the request-has-expired
marker and `currentURL = "A"` differs from `originalURL = "o"`, yet no
reset happens and the 403 is returned, because the code additionally
requires a nonempty `X-AMZ-Request-ID` header. -/
theorem c6_cex :
    (doRun 10 trC6 "o" 8 0 "o" false 0).1.count Ev.expiryReset = 2 ∧
    (doRun 10 trC6b "o" 8 0 "o" false 0).1.count Ev.expiryReset = 0 ∧
    (doRun 10 trC6b "o" 8 0 "o" false 0).2 = some ⟨expiredNoAmz, none, "A", 2⟩ := by
  refine ⟨by decide, by decide, by decide⟩

/-- The second event of a `HttpFile.do` step is an expiry reset exactly
when the response is a non-redirect, non-failure 403 that misses the
throttling branch, carries a nonempty `X-AMZ-Request-ID`, has a readable
body containing the expiry marker, and `f.Url` differs from `f.origUrl`. -/
theorem expiry_fire_iff (R : Nat) (tr : Nat → Resp) (orig : String)
    (fuel k retry : Nat) (url : String) (redirect : Bool) :
    (doRun R tr orig (fuel + 1) k url redirect retry).1.tail.head? =
        some Ev.expiryReset ↔
      (tr k).redir = false ∧ (tr k).fail = false ∧
      ¬((tr k).status = 403 ∧ (tr k).xCache = cloudfrontMarker) ∧
      ((tr k).status = 403 ∧ (tr k).xAmzId ≠ "" ∧ (tr k).body ≠ [] ∧
        containsSub expiredMarker ((tr k).body.take 256) = true ∧
        url ≠ orig) := by
  simp only [doRun]
  by_cases h1 : (tr k).redir = true
  · rw [if_pos h1]
    by_cases hb : redirect = true
    · rw [if_pos hb]
      exact iff_of_false (by simp) (fun hc => by simp [hc.1] at h1)
    · rw [if_neg hb]
      exact iff_of_false (by simp) (fun hc => by simp [hc.1] at h1)
  · have h1' : (tr k).redir = false := by simpa using h1
    rw [if_neg h1]
    by_cases h2 : (tr k).fail = true
    · rw [if_pos h2]
      exact iff_of_false (by simp) (fun hc => by simp [hc.2.1] at h2)
    · have h2' : (tr k).fail = false := by simpa using h2
      rw [if_neg h2]
      by_cases h3 : (tr k).status = 403 ∧ (tr k).xCache = cloudfrontMarker
      · rw [if_pos h3]
        by_cases h4 : retry + 1 < R
        · rw [if_pos h4]
          exact iff_of_false (by simp) (fun hc => hc.2.2.1 h3)
        · rw [if_neg h4]
          exact iff_of_false (by simp) (fun hc => hc.2.2.1 h3)
      · rw [if_neg h3]
        by_cases h5 : (tr k).status = 403 ∧ (tr k).xAmzId ≠ "" ∧
            (tr k).body ≠ [] ∧
            containsSub expiredMarker ((tr k).body.take 256) = true ∧
            url ≠ orig
        · rw [if_pos h5]
          exact iff_of_true rfl ⟨h1', h2', h3, h5⟩
        · rw [if_neg h5]
          exact iff_of_false (by simp) (fun hc => h5 hc.2.2.2)

/-- Claim C6 as amended: the expiry-driven retry fires exactly on a 403
with a nonempty `X-AMZ-Request-ID` header whose readable body contains the
request-has-expired marker while `currentURL` differs from `originalURL`
(and the throttling branch did not claim the response), resetting
`currentURL` to `originalURL`; two such retries in one logical call are
always separated by a redirect substitution (the retry cannot fire twice
in a row), but with fresh redirects it can fire more than once per logical
call — twice on the transport `trC6`. -/
theorem c6_expiry_reset :
    (∀ (R : Nat) (tr : Nat → Resp) (orig : String) (fuel k retry : Nat)
      (url : String) (redirect : Bool),
      resetsSeparated (doRun R tr orig fuel k url redirect retry).1 = true) ∧
    (∀ (R : Nat) (tr : Nat → Resp) (orig : String) (fuel k retry : Nat)
      (url : String) (redirect : Bool),
      (doRun R tr orig (fuel + 1) k url redirect retry).1.tail.head? =
          some Ev.expiryReset ↔
        (tr k).redir = false ∧ (tr k).fail = false ∧
        ¬((tr k).status = 403 ∧ (tr k).xCache = cloudfrontMarker) ∧
        ((tr k).status = 403 ∧ (tr k).xAmzId ≠ "" ∧ (tr k).body ≠ [] ∧
          containsSub expiredMarker ((tr k).body.take 256) = true ∧
          url ≠ orig)) ∧
    (doRun 10 trC6 "o" 8 0 "o" false 0).1.count Ev.expiryReset = 2 := by
  exact ⟨fun R tr orig fuel k retry url redirect =>
      rs_doRun R tr orig fuel k retry url redirect,
    fun R tr orig fuel k retry url redirect =>
      expiry_fire_iff R tr orig fuel k retry url redirect,
    by decide⟩

/-- Result of `f.do("GET", Range)` as consumed by `HttpFile.readAt`
(source lines 302-330): whether the call returned a non-nil error, the
status code, the `Content-Range` header, and the body bytes. -/
structure FetchRes where
  fail : Bool
  status : Nat
  contentRange : String
  body : List Char
  deriving DecidableEq, Repr

/-- Result of one `readAt` call: the returned count, the bytes written
into the destination, the returned error, and the number of HTTP range
requests issued. -/
structure ReadOut where
  n : Nat
  bytes : List Char
  err : Option Err
  reqs : Nat
  deriving DecidableEq, Repr

/-- Model of `io.ReadFull(resp.Body, p)` for a destination of `plen`
bytes against a body: `ReadFull` returns `(plen, nil)` when the body has
at least `plen` bytes, `(0, io.EOF)` when it is empty, and
`(len(body), io.ErrUnexpectedEOF)` on a nonempty short read — it never
returns `io.EOF` together with a positive count. -/
def readFull (plen : Nat) (body : List Char) : Nat × Option Err :=
  if plen ≤ body.length then (plen, none)
  else if body.length = 0 then (0, some Err.eof)
  else (body.length, some Err.unexpectedEOF)

/-- Shallow embedding of `HttpFile.readAt` (source lines 284-331).
`fetch first last` stands for `f.do("GET", Range: bytes=first-last)`;
`client` is `f.client != nil` and `flen` is `f.len`.  The call to
`f.getContentRange` at line 319 only shadows `err` and its result is
otherwise unused, so it is omitted here.  The degenerate range produced
when `off >= f.len` (`end-1 < off`) is passed to the fetch as-is: the
source has no local offset-versus-length check. -/
def readAt (fetch : Int → Int → FetchRes) (client : Bool) (flen : Int)
    (plen : Nat) (off : Int) : ReadOut :=
  if client = false then ⟨0, [], some Err.errInvalid, 0⟩
  else if plen = 0 then ⟨plen, [], none, 0⟩
  else
    let endPos : Int := if off + (plen : Int) > flen then flen else off + (plen : Int)
    let r := fetch off (endPos - 1)
    if r.fail then ⟨0, [], some Err.transport, 1⟩
    else if r.status = 416 then ⟨0, [], some Err.eof, 1⟩
    else if r.status ≠ 206 then ⟨0, [], some (Err.unexpectedStatus r.status), 1⟩
    else
      let nerr := readFull plen r.body
      let fixed := if 0 < nerr.1 ∧ nerr.2 = some Err.eof then none else nerr.2
      ⟨nerr.1, r.body.take plen, fixed, 1⟩

/-- A well-behaved static origin serving `content` under S3-style range
semantics: 416 whenever the range start lies outside the resource,
otherwise 206 with the requested bytes, the end clamped to the resource.
This is test-harness modelling of the remote server, not repository code. -/
def staticServer (content : List Char) (first lastPos : Int) : FetchRes :=
  if first < 0 ∨ (content.length : Int) ≤ first then ⟨false, 416, "", []⟩
  else
    let lst := if (content.length : Int) ≤ lastPos then
        (content.length : Int) - 1 else lastPos
    if lst < first then ⟨false, 416, "", []⟩
    else ⟨false, 206, "", (content.drop first.toNat).take (lst - first + 1).toNat⟩

/-- A server that ignores the `Range` header entirely and answers 200
with the full resource, as an RFC-conformant origin does when the range
is syntactically invalid (`last < first`). -/
def server200 (content : List Char) : Int → Int → FetchRes :=
  fun _ _ => ⟨false, 200, "", content⟩

/-- Claim C3, evaluation at the failing input: a 5-byte resource read
with an 8-byte destination at offset 0.  The clamped range `bytes=0-4`
returns 5 bytes; `io.ReadFull` reports `(5, io.ErrUnexpectedEOF)`, the
`n > 0 && err == io.EOF` fix-up does not fire (ReadFull never yields
`io.EOF` with a positive count), and `readAt` returns the error instead
of `(5, nil)`. -/
theorem c3_short_read_err :
    readAt (staticServer "hello".toList) true 5 8 0 =
      ⟨5, "hello".toList, some Err.unexpectedEOF, 1⟩ := by
  decide

/-- Claim C8, counterexample: (i) an open stream with a zero-length
destination at offset 7 ≥ length 5 returns `(0, nil)` — no end-of-stream
signal and no request; (ii) with a nonempty destination at offset
7 ≥ length 5, a server that answers the degenerate range `bytes=7-4` with
200 (as RFC range semantics prescribe for a syntactically invalid range)
makes `readAt` return an unexpected-status error, not end-of-stream:
the code has no local `offset >= length` check. -/
theorem c8_cex :
    readAt (staticServer "hello".toList) true 5 0 7 = ⟨0, [], none, 0⟩ ∧
    readAt (server200 "hello".toList) true 5 3 7 =
      ⟨0, [], some (Err.unexpectedStatus 200), 1⟩ := by
  exact ⟨by decide, by decide⟩

/-- Claim C8 as amended: for every `readAt` on an open stream with a
nonempty destination, whenever the issued (clamped) range fetch returns
status 416 without a transport error the result is `(0, io.EOF)` after
exactly one request; in particular, against a server honoring range
semantics with 416 for ranges starting at or past the end (the static
model), every call with `offset ≥ length` yields `(0, io.EOF)` — the
code itself has no local offset-versus-length check. -/
theorem c8_eof_on_416 :
    (∀ (fetch : Int → Int → FetchRes) (flen : Int) (plen : Nat) (off : Int),
      0 < plen →
      (fetch off ((if off + (plen : Int) > flen then flen
          else off + (plen : Int)) - 1)).fail = false →
      (fetch off ((if off + (plen : Int) > flen then flen
          else off + (plen : Int)) - 1)).status = 416 →
      readAt fetch true flen plen off = ⟨0, [], some Err.eof, 1⟩) ∧
    (∀ (content : List Char) (plen : Nat) (off : Int),
      0 < plen → (content.length : Int) ≤ off →
      readAt (staticServer content) true (content.length : Int) plen off =
        ⟨0, [], some Err.eof, 1⟩) := by
  constructor
  · intro fetch flen plen off hp hfail hst
    rw [readAt]
    rw [if_neg (by simp), if_neg (by omega)]
    simp only [hfail, hst]
    rfl
  · intro content plen off hp hoff
    have h0 : (0 : Int) ≤ off := le_trans (Int.ofNat_nonneg _) hoff
    rw [readAt]
    rw [if_neg (by simp), if_neg (by omega)]
    have hsrv : ∀ lastPos : Int, staticServer content off lastPos =
        ⟨false, 416, "", []⟩ := by
      intro lastPos
      rw [staticServer, if_pos (Or.inr hoff)]
    simp only [hsrv]
    rfl

/-- Witness for C8 (amended): a 5-byte resource probed at offset 7 with a
3-byte destination against the static server yields `(0, io.EOF)` after
one request. -/
theorem c8_eof_on_416_witness :
    readAt (staticServer "hello".toList) true 5 3 7 =
      ⟨0, [], some Err.eof, 1⟩ := by
  have h := c8_eof_on_416.2 "hello".toList 3 7 (by decide) (by decide)
  simpa using h

/-- The state of an `HttpFile` (source lines 105-120) as far as the read
machinery observes it: `client` is `f.client != nil`, `len` is `f.len`,
`pos` the sequential cursor, `buffered` is `f.Buffer != nil` with
`buffer` its backing bytes (capacity = `buffer.length`), `bpos` the seek
position for buffered reads, and `bstart`/`bend` delimit the valid bytes
of the buffer.  `f.Url`/`f.origUrl`/`f.Headers` live in the `doRun`
layer; the fetch parameter of the read functions stands for `f.do`. -/
structure HFile where
  client : Bool
  len : Int
  pos : Int
  buffered : Bool
  buffer : List Char
  bpos : Int
  bstart : Nat
  bend : Nat
  deriving DecidableEq, Repr

/-- The valid resident bytes `f.Buffer[f.bstart:f.bend]`. -/
def window (st : HFile) : List Char := (st.buffer.take st.bend).drop st.bstart

/-- Shallow embedding of the window-adjustment block of
`HttpFile.readFromBuffer` (source lines 342-361): when the requested
offset breaks sequential continuity, either shift the window start
forward over the stale prefix (overlap case) or discard the buffer, then
move `bpos` to the offset.  `blen` is the Go `f.bend - f.bstart`; in all
states reachable from an open stream `bstart ≤ bend` holds, matching the
truncated `Nat` subtraction used here. -/
def adjustBuffer (st : HFile) (off : Int) : HFile :=
  if off ≠ st.bpos then
    let blen : Nat := st.bend - st.bstart
    if blen = 0 then { st with bstart := 0, bend := 0, bpos := off }
    else if st.bpos < off ∧ st.bpos + (blen : Int) > off then
      { st with bstart := st.bstart + (off - st.bpos).toNat, bpos := off }
    else { st with bstart := 0, bend := 0, bpos := off }
  else st

/-- Result of one `readFromBuffer`/`ReadAt`/`Read` call: the returned
count, all bytes copied into the caller's destination, the returned
error, the resulting stream state and the number of range requests
issued. -/
structure BufOut where
  n : Nat
  written : List Char
  err : Option Err
  st : HFile
  reqs : Nat
  deriving DecidableEq, Repr

/-- Shallow embedding of the read loop of `HttpFile.readFromBuffer`
(source lines 363-401), one recursive call per loop iteration, bounded by
`fuel` (`none` = fuel exhausted; the Go loop has no such bound).  Inside
an iteration: copy from the resident window (returning `(ppos, nil)` if
the destination fills), bypass the buffer for a large remainder
(returning `readAt`'s pair unchanged, as the source does), otherwise
refill the whole buffer with one `readAt` and return `(0, err)` if that
read produced no bytes and an error.  Falling out of the loop hits the
source's `panic("should not get here")`. -/
def rfbLoop (fetch : Int → Int → FetchRes) (plen : Nat) :
    Nat → HFile → Nat → List Char → Nat → Option BufOut
  | 0, _, _, _, _ => none
  | fuel + 1, st, ppos, written, reqs =>
    if ppos < plen then
      let cpy := min (plen - ppos) (st.bend - st.bstart)
      let st1 := if st.bstart < st.bend then
          { st with bstart := st.bstart + cpy, bpos := st.bpos + (cpy : Int) }
        else st
      let ppos1 := if st.bstart < st.bend then ppos + cpy else ppos
      let written1 := if st.bstart < st.bend then
          written ++ (st.buffer.drop st.bstart).take cpy else written
      if plen ≤ ppos1 then
        some ⟨ppos1, written1, none, st1, reqs⟩
      else if st1.buffer.length < plen - ppos1 then
        let st2 := { st1 with bstart := 0, bend := 0 }
        let r := readAt fetch st2.client st2.len (plen - ppos1) st2.bpos
        some ⟨r.n, written1 ++ r.bytes, r.err, st2, reqs + r.reqs⟩
      else
        let r := readAt fetch st1.client st1.len st1.buffer.length st1.bpos
        let st2 := { st1 with buffer := r.bytes ++ st1.buffer.drop r.n, bstart := 0, bend := r.n }
        if r.err ≠ none ∧ r.n = 0 then
          some ⟨0, written1, r.err, st2, reqs + r.reqs⟩
        else
          rfbLoop fetch plen fuel st2 ppos1 written1 (reqs + r.reqs)
    else
      some ⟨0, written, some Err.panicked, st, reqs⟩

/-- Shallow embedding of `HttpFile.readFromBuffer` (source lines
333-401): the zero-length early return (before any state change), the
window adjustment, then the read loop. -/
def readFromBuffer (fetch : Int → Int → FetchRes) (fuel : Nat)
    (st : HFile) (plen : Nat) (off : Int) : Option BufOut :=
  if plen = 0 then some ⟨0, [], none, st, 0⟩
  else rfbLoop fetch plen fuel (adjustBuffer st off) 0 [] 0

/-- Shallow embedding of `HttpFile.ReadAt` (source lines 404-412):
dispatch on `f.Buffer != nil`. -/
def ReadAtF (fetch : Int → Int → FetchRes) (fuel : Nat)
    (st : HFile) (plen : Nat) (off : Int) : Option BufOut :=
  if st.buffered then readFromBuffer fetch fuel st plen off
  else
    let r := readAt fetch st.client st.len plen off
    some ⟨r.n, r.bytes, r.err, st, r.reqs⟩

/-- Shallow embedding of `HttpFile.Read` (source lines 415-425): read at
the cursor, advancing it only when bytes were returned. -/
def ReadF (fetch : Int → Int → FetchRes) (fuel : Nat)
    (st : HFile) (plen : Nat) : Option BufOut :=
  match ReadAtF fetch fuel st plen st.pos with
  | none => none
  | some o =>
    if 0 < o.n then some { o with st := { o.st with pos := o.st.pos + (o.n : Int) } }
    else some o

/-- Shallow embedding of `HttpFile.Close` (source lines 428-434): drop
the client, invalidate `pos` and `len`, return `nil`. -/
def closeF (st : HFile) : HFile × Option Err :=
  ({ st with client := false, pos := -1, len := -1 }, none)

/-- Shallow embedding of `HttpFile.Seek` (source lines 437-464). -/
def seekF (st : HFile) (offset : Int) (whence : Nat) : (Int × Option Err) × HFile :=
  let newpos : Int :=
    if st.client then
      match whence with
      | 0 => offset
      | 1 => st.pos + offset
      | 2 => st.len + offset
      | _ => -1
    else -1
  if newpos < 0 then ((0, some Err.errInvalid), st)
  else ((newpos, none), { st with pos := newpos })

/-- Claim C7: the shift-or-discard window adjustment.  For a well-formed
window (`bstart ≤ bend`) and an offset breaking sequential continuity
(`off ≠ bpos`): in the overlap case (`bpos < off < bpos + blen`) exactly
the stale prefix is dropped — `bstart` advances by `off - bpos`, `bpos`
becomes `off`, everything else (including the surviving suffix of the
valid window) is kept; in every other case the buffer is discarded
(`bstart = bend = 0`, an empty valid window) and `bpos` becomes `off`. -/
theorem c7_adjust (st : HFile) (off : Int) (hbs : st.bstart ≤ st.bend)
    (hne : off ≠ st.bpos) :
    (st.bpos < off ∧ off < st.bpos + ((st.bend - st.bstart : Nat) : Int) →
      adjustBuffer st off =
        { st with bstart := st.bstart + (off - st.bpos).toNat, bpos := off } ∧
      window (adjustBuffer st off) = (window st).drop (off - st.bpos).toNat) ∧
    (¬(st.bpos < off ∧ off < st.bpos + ((st.bend - st.bstart : Nat) : Int)) →
      adjustBuffer st off = { st with bstart := 0, bend := 0, bpos := off } ∧
      window (adjustBuffer st off) = []) := by
  constructor
  · intro h
    have hd : adjustBuffer st off =
        { st with bstart := st.bstart + (off - st.bpos).toNat, bpos := off } := by
      simp only [adjustBuffer]
      rw [if_pos hne, if_neg (by omega), if_pos h]
    refine ⟨hd, ?_⟩
    rw [hd]
    simp [window, List.drop_drop, Nat.add_comm]
  · intro h
    have hd : adjustBuffer st off =
        { st with bstart := 0, bend := 0, bpos := off } := by
      simp only [adjustBuffer]
      rw [if_pos hne]
      by_cases hb : st.bend - st.bstart = 0
      · rw [if_pos hb]
      · rw [if_neg hb, if_neg h]
    exact ⟨hd, by rw [hd]; rfl⟩

/-- A buffered stream state whose resident window holds bytes `b..e` of
`"abcdef"` at logical position 10. -/
def stC7 : HFile :=
  { client := true, len := 100, pos := 0, buffered := true,
    buffer := "abcdef".toList, bpos := 10, bstart := 1, bend := 5 }

/-- Witness for C7: adjusting `stC7` to offset 12 (inside the window
`[10, 14)`) drops exactly 2 stale bytes and keeps the suffix. -/
theorem c7_adjust_witness :
    adjustBuffer stC7 12 =
      { stC7 with
        bstart := stC7.bstart + ((12 : Int) - stC7.bpos).toNat,
        bpos := 12 } ∧
    window (adjustBuffer stC7 12) =
      (window stC7).drop ((12 : Int) - stC7.bpos).toNat :=
  (c7_adjust stC7 12 (by decide) (by decide)).1 (by decide)

/-- A fresh open buffered stream over a 5-byte resource with a 10-byte
look-ahead buffer. -/
def stC2 : HFile :=
  { client := true, len := 5, pos := 0, buffered := true,
    buffer := List.replicate 10 '.', bpos := 0, bstart := 0, bend := 0 }

/-- Claim C2, evaluation at the failing input: reading 8 bytes at offset
0 of the 5-byte resource `"hello"` through the buffer.  The refill
obtains 5 bytes, the copy step moves all 5 into the destination
(`written = "hello"`), then the next refill hits end-of-stream
(`readAt` returns `(0, io.EOF)`), and `readFromBuffer` returns
`(0, io.EOF)` — the partial count of 5 is lost, instead of the claimed
`(5, nil)`. -/
theorem c2_partial_lost :
    readFromBuffer (staticServer "hello".toList) 10 stC2 8 0 =
      some ⟨0, "hello".toList, some Err.eof,
        { stC2 with
          buffer := "hello".toList ++ List.replicate 5 '.',
          bpos := 5 }, 2⟩ := by
  decide

/-- A closed-stream scenario: an open buffered stream whose window holds
`"abc"` (of buffer `"abcd"`) at logical position 7, about to be closed. -/
def stC4 : HFile :=
  { client := true, len := 9, pos := 7, buffered := true,
    buffer := "abcd".toList, bpos := 7, bstart := 0, bend := 3 }

/-- Claim C4, counterexample: after `Close()` (which nils the client and
invalidates `pos`/`len`), a `ReadAt` at offset 7 with a 2-byte
destination is served entirely from the resident look-ahead window and
returns `(2, nil)` with no request issued — not an invalid-state error:
`readFromBuffer` never checks `f.client`. -/
theorem c4_cex :
    ReadAtF (staticServer "zzzzzzzzz".toList) 5 ((closeF stC4).1) 2 7 =
      some ⟨2, "ab".toList, none,
        { (closeF stC4).1 with bstart := 2, bpos := 9 }, 0⟩ := by
  decide

/-- Record-field frame of `adjustBuffer`: only `bpos`, `bstart`, `bend`
can change. -/
theorem adjustBuffer_frame (st : HFile) (off : Int) :
    (adjustBuffer st off).client = st.client ∧
    (adjustBuffer st off).len = st.len ∧
    (adjustBuffer st off).pos = st.pos ∧
    (adjustBuffer st off).buffered = st.buffered ∧
    (adjustBuffer st off).buffer = st.buffer := by
  simp only [adjustBuffer]
  split
  · split
    · exact ⟨rfl, rfl, rfl, rfl, rfl⟩
    · split
      · exact ⟨rfl, rfl, rfl, rfl, rfl⟩
      · exact ⟨rfl, rfl, rfl, rfl, rfl⟩
  · exact ⟨rfl, rfl, rfl, rfl, rfl⟩

/-- Adjusting an empty window leaves it empty. -/
theorem adjustBuffer_empty (st : HFile) (off : Int) (h : st.bend ≤ st.bstart) :
    ¬(adjustBuffer st off).bstart < (adjustBuffer st off).bend := by
  have hb : st.bend - st.bstart = 0 := Nat.sub_eq_zero_of_le h
  by_cases hne : off ≠ st.bpos
  · rw [adjustBuffer, if_pos hne]
    simp only [hb]
    simp
  · rw [adjustBuffer, if_neg hne]
    omega

/-- After `Close`, a buffered read that cannot be served from the (empty)
resident window fails with the invalid-state error and issues no
request. -/
theorem readFromBuffer_closed (fetch : Int → Int → FetchRes) (fuel : Nat)
    (st : HFile) (plen : Nat) (off : Int) (hc : st.client = false)
    (hbe : st.bend ≤ st.bstart) (hp : 0 < plen) (hf : 0 < fuel) :
    readFromBuffer fetch fuel st plen off =
      some ⟨0, [], some Err.errInvalid,
        { adjustBuffer st off with bstart := 0, bend := 0 }, 0⟩ := by
  obtain ⟨fuel, rfl⟩ := Nat.exists_eq_succ_of_ne_zero (Nat.pos_iff_ne_zero.mp hf)
  rw [readFromBuffer, if_neg (Nat.pos_iff_ne_zero.mp hp)]
  have hadj : ¬(adjustBuffer st off).bstart < (adjustBuffer st off).bend :=
    adjustBuffer_empty st off hbe
  have hcl : (adjustBuffer st off).client = false :=
    (adjustBuffer_frame st off).1.trans hc
  simp only [rfbLoop, if_pos hp, if_neg hadj]
  rw [if_neg (by omega : ¬plen ≤ 0)]
  split
  · rw [readAt, if_pos hcl]
    rfl
  · rw [readAt, if_pos hcl]
    simp

/-- After `Close`, an unbuffered `Read` fails with the invalid-state
error. -/
theorem ReadF_closed_unbuffered (fetch : Int → Int → FetchRes) (fuel : Nat)
    (st : HFile) (plen : Nat) (hc : st.client = false)
    (hb : st.buffered = false) :
    ReadF fetch fuel st plen = some ⟨0, [], some Err.errInvalid, st, 0⟩ := by
  rw [ReadF, ReadAtF, if_neg (by simp [hb]), readAt, if_pos hc]
  rfl

/-- Claim C4 as amended: `Close` is idempotent and returns `nil`; after
it, `Seek` fails with the invalid-state error for every argument and so
does every read that must reach the transport — any unbuffered
`readAt`/`Read`, and any buffered read whose resident window is empty.
However, a buffered `ReadAt` that can be served entirely from resident
look-ahead bytes still succeeds on a closed stream (concretely on
`stC4`, reading 3 bytes at offset 7): the invalid-state check is not
consistent across calls, because `readFromBuffer` never inspects the
client reference. -/
theorem c4_after_close :
    (∀ (st : HFile) (offset : Int) (whence : Nat), st.client = false →
      seekF st offset whence = ((0, some Err.errInvalid), st)) ∧
    (∀ (fetch : Int → Int → FetchRes) (flen : Int) (plen : Nat) (off : Int),
      readAt fetch false flen plen off = ⟨0, [], some Err.errInvalid, 0⟩) ∧
    (∀ (fetch : Int → Int → FetchRes) (fuel : Nat) (st : HFile) (plen : Nat)
      (off : Int), st.client = false → st.bend ≤ st.bstart → 0 < plen →
      0 < fuel →
      readFromBuffer fetch fuel st plen off =
        some ⟨0, [], some Err.errInvalid,
          { adjustBuffer st off with bstart := 0, bend := 0 }, 0⟩) ∧
    (∀ (fetch : Int → Int → FetchRes) (fuel : Nat) (st : HFile) (plen : Nat),
      st.client = false → st.buffered = false →
      ReadF fetch fuel st plen = some ⟨0, [], some Err.errInvalid, st, 0⟩) ∧
    (∀ st : HFile, closeF ((closeF st).1) = closeF st) ∧
    (∀ st : HFile, (closeF st).2 = none) ∧
    ReadAtF (staticServer "zzzzzzzzz".toList) 5 ((closeF stC4).1) 3 7 =
      some ⟨3, "abc".toList, none,
        { (closeF stC4).1 with bstart := 3, bpos := 10 }, 0⟩ := by
  refine ⟨?_, fun fetch flen plen off => rfl, readFromBuffer_closed,
    ReadF_closed_unbuffered, fun st => rfl, fun st => rfl, by decide⟩
  intro st offset whence hc
  simp [seekF, hc]

/-- Witness for C4 (amended): the universally quantified parts applied to
the concrete closed stream `(closeF stC4).1`. -/
theorem c4_after_close_witness :
    seekF ((closeF stC4).1) 3 0 = ((0, some Err.errInvalid), (closeF stC4).1) ∧
    readFromBuffer (staticServer "zzzzzzzzz".toList) 5
        { (closeF stC4).1 with bstart := 0, bend := 0 } 2 7 =
      some ⟨0, [], some Err.errInvalid,
        { adjustBuffer { (closeF stC4).1 with bstart := 0, bend := 0 } 7 with
            bstart := 0, bend := 0 }, 0⟩ ∧
    ReadF (staticServer "zzzzzzzzz".toList) 5
        { (closeF stC4).1 with buffered := false } 2 =
      some ⟨0, [], some Err.errInvalid,
        { (closeF stC4).1 with buffered := false }, 0⟩ :=
  ⟨c4_after_close.1 ((closeF stC4).1) 3 0 rfl,
    c4_after_close.2.2.1 (staticServer "zzzzzzzzz".toList) 5
      { (closeF stC4).1 with bstart := 0, bend := 0 } 2 7 rfl
      (by decide) (by decide) (by decide),
    c4_after_close.2.2.2.1 (staticServer "zzzzzzzzz".toList) 5
      { (closeF stC4).1 with buffered := false } 2 rfl rfl⟩

/-- A buffered open stream used by the zero-length-read witness. -/
def stC10 : HFile :=
  { client := true, len := 42, pos := 3, buffered := true,
    buffer := "wxyz".toList, bpos := 3, bstart := 1, bend := 3 }

/-- Zero-length `readAt` on an open stream: no request, `(0, nil)`. -/
theorem readAt_zero_len (fetch : Int → Int → FetchRes) (flen off : Int) :
    readAt fetch true flen 0 off = ⟨0, [], none, 0⟩ := rfl

/-- Zero-length `readFromBuffer`: returns before touching any state. -/
theorem readFromBuffer_zero_len (fetch : Int → Int → FetchRes) (fuel : Nat)
    (st : HFile) (off : Int) :
    readFromBuffer fetch fuel st 0 off = some ⟨0, [], none, st, 0⟩ := rfl

/-- Zero-length `ReadAt` on an open stream: `(0, nil)`, state unchanged,
no request. -/
theorem ReadAtF_zero_len (fetch : Int → Int → FetchRes) (fuel : Nat)
    (st : HFile) (off : Int) (hc : st.client = true) :
    ReadAtF fetch fuel st 0 off = some ⟨0, [], none, st, 0⟩ := by
  rw [ReadAtF]
  by_cases hb : st.buffered = true
  · rw [if_pos hb]
    exact readFromBuffer_zero_len fetch fuel st off
  · rw [if_neg hb]
    simp only [hc]
    rfl

/-- Zero-length `Read` on an open stream: `(0, nil)`, cursor and state
unchanged, no request. -/
theorem ReadF_zero_len (fetch : Int → Int → FetchRes) (fuel : Nat)
    (st : HFile) (hc : st.client = true) :
    ReadF fetch fuel st 0 = some ⟨0, [], none, st, 0⟩ := by
  rw [ReadF, ReadAtF_zero_len fetch fuel st st.pos hc]
  rfl

/-- Claim C10: `Read` and `ReadAt` with a zero-length destination on an
open stream return `(0, nil)` immediately — no HTTP request is issued
(`reqs = 0`) and the state (cursor, buffer position, buffer contents) is
returned unchanged; likewise for the underlying `readAt` and
`readFromBuffer`. -/
theorem c10_zero_len :
    (∀ (fetch : Int → Int → FetchRes) (flen off : Int),
      readAt fetch true flen 0 off = ⟨0, [], none, 0⟩) ∧
    (∀ (fetch : Int → Int → FetchRes) (fuel : Nat) (st : HFile) (off : Int),
      readFromBuffer fetch fuel st 0 off = some ⟨0, [], none, st, 0⟩) ∧
    (∀ (fetch : Int → Int → FetchRes) (fuel : Nat) (st : HFile) (off : Int),
      st.client = true → ReadAtF fetch fuel st 0 off = some ⟨0, [], none, st, 0⟩) ∧
    (∀ (fetch : Int → Int → FetchRes) (fuel : Nat) (st : HFile),
      st.client = true → ReadF fetch fuel st 0 = some ⟨0, [], none, st, 0⟩) :=
  ⟨readAt_zero_len, readFromBuffer_zero_len,
    fun fetch fuel st off hc => ReadAtF_zero_len fetch fuel st off hc,
    fun fetch fuel st hc => ReadF_zero_len fetch fuel st hc⟩

/-- Witness for C10 at a concrete buffered open stream. -/
theorem c10_zero_len_witness :
    ReadAtF (staticServer "hello".toList) 4 stC10 0 9 =
      some ⟨0, [], none, stC10, 0⟩ ∧
    ReadF (staticServer "hello".toList) 4 stC10 0 =
      some ⟨0, [], none, stC10, 0⟩ :=
  ⟨c10_zero_len.2.2.1 (staticServer "hello".toList) 4 stC10 9 rfl,
    c10_zero_len.2.2.2 (staticServer "hello".toList) 4 stC10 rfl⟩

/-- Space characters for `fmt` scanning (HTTP header values carry no
newlines, so blank and tab suffice here). -/
def isSp (c : Char) : Bool := c = ' ' || c = '\t'

/-- Decimal digit test. -/
def isDigitCh (c : Char) : Bool := '0' ≤ c && c ≤ '9'

/-- Maximal leading run of spaces: `(run, rest)`. -/
def takeSp : List Char → List Char × List Char
  | [] => ([], [])
  | c :: t =>
    if isSp c then
      let p := takeSp t
      (c :: p.1, p.2)
    else ([], c :: t)

/-- Match the literal characters `L` at the head of the input, returning
the rest; a literal character in a `Sscanf` format consumes exactly that
input character. -/
def litStr : List Char → List Char → Option (List Char)
  | [], h => some h
  | _ :: _, [] => none
  | a :: as, b :: bs => if b = a then litStr as bs else none

/-- Match one literal character. -/
def litCh (a : Char) : List Char → Option (List Char)
  | [] => none
  | b :: bs => if b = a then some bs else none

/-- Maximal nonempty leading run of decimal digits. -/
def digitsRun : List Char → Option (List Char × List Char)
  | [] => none
  | c :: t =>
    if isDigitCh c then
      match digitsRun t with
      | some p => some (c :: p.1, p.2)
      | none => some ([c], t)
    else none

/-- Value of a digit run. -/
def decVal : List Char → Nat :=
  List.foldl (fun a c => 10 * a + (c.toNat - 48)) 0

/-- Smallest `int64` value, `-2^63`. -/
def int64Min : Int := -9223372036854775808

/-- Largest `int64` value, `2^63 - 1`. -/
def int64Max : Int := 9223372036854775807

/-- The scanned value fits the `int64` destination of the `%d` verb. -/
def fitsInt64 (v : Int) : Prop := int64Min ≤ v ∧ v ≤ int64Max

instance (v : Int) : Decidable (fitsInt64 v) := by
  unfold fitsInt64; infer_instance

/-- The `%d` verb of `fmt` scanning into an `int64` operand: skip leading
spaces, then an optionally signed nonempty run of decimal digits, maximal
munch; the signed value must fit `int64` — `fmt.Sscanf` converts the
digit token with `strconv.ParseInt(..., 10, 64)` and reports a range
error on overflow, which surfaces as a scan error. -/
def scanD (h : List Char) : Option (Int × List Char) :=
  match (takeSp h).2 with
  | [] => none
  | c :: t =>
    if c = '-' then
      match digitsRun t with
      | some p =>
        if fitsInt64 (-(decVal p.1 : Int)) then some (-(decVal p.1 : Int), p.2)
        else none
      | none => none
    else if c = '+' then
      match digitsRun t with
      | some p =>
        if fitsInt64 ((decVal p.1 : Int)) then some ((decVal p.1 : Int), p.2)
        else none
      | none => none
    else
      match digitsRun (c :: t) with
      | some p =>
        if fitsInt64 ((decVal p.1 : Int)) then some ((decVal p.1 : Int), p.2)
        else none
      | none => none

/-- A space in a `Sscanf` format string: consumes a maximal run of
spaces, which must be nonempty unless the input is exhausted. -/
def fmtSp (h : List Char) : Option (List Char) :=
  match takeSp h with
  | ([], []) => some []
  | ([], _ :: _) => none
  | (_ :: _, r) => some r

/-- Model of `fmt.Sscanf(s, "bytes %d-%d/%d", &first, &last, &total)`
(source line 266): the literal `bytes`, a format space, then the three
`%d` verbs separated by the literal characters `-` and `/`.  `Sscanf`
stops after the last verb: input left over after the third integer is
not an error. -/
def scanContentRange (h : List Char) : Option (Int × Int × Int) :=
  (litStr "bytes".toList h).bind fun h1 =>
  (fmtSp h1).bind fun h2 =>
  (scanD h2).bind fun p1 =>
  (litCh '-' p1.2).bind fun h3 =>
  (scanD h3).bind fun p2 =>
  (litCh '/' p2.2).bind fun h4 =>
  (scanD h4).map fun p3 => (p1.1, p2.1, p3.1)

/-- Shallow embedding of `HttpFile.getContentRange` (source lines
263-276).  The Go code returns the `Sscanf` error when scanning fails;
the extra `n != 3` branch is unreachable because `Sscanf` reports an
error whenever it converts fewer than three operands. -/
def getContentRange (hdr : String) : Except Err (Int × Int × Int) :=
  match scanContentRange hdr.toList with
  | some t => Except.ok t
  | none => Except.error Err.scanErr

/-- Observable `HttpFile` state produced by a successful open: an open,
unbuffered stream at position 0 with the probed length. -/
def mkFile (l : Int) : HFile :=
  { client := true, len := l, pos := 0, buffered := false, buffer := [],
    bpos := 0, bstart := 0, bend := 0 }

/-- Shallow embedding of `OpenHttpFile` (source lines 154-194): probe the
resource through `HttpFile.do` (the probe request is `HEAD`, or a 1-byte
ranged `GET` under `HttpFileNoHead`; the transport oracle already fixes
the response, so the method choice is immaterial here), then decide on
the probe status: any error from `do` is wrapped, 404 is `os.ErrNotExist`,
200 takes `ContentLength`, 206 parses `Content-Range` and takes the
total, anything else is an unexpected-status error.  `none` from the
fuel-bounded `doRun` (never reached on the concrete transports used
below) is mapped to a transport error. -/
def OpenHttpFile (tr : Nat → Resp) (fuel : Nat) (url : String) :
    Except Err HFile :=
  match (doRun HttpFileRetries tr url fuel 0 url false 0).2 with
  | none => Except.error Err.transport
  | some d =>
    match d.err with
    | some _ => Except.error Err.transport
    | none =>
      if d.resp.status = 404 then Except.error Err.notExist
      else if d.resp.status = 200 then Except.ok (mkFile d.resp.contentLength)
      else if d.resp.status = 206 then
        match getContentRange d.resp.contentRange with
        | Except.ok t => Except.ok (mkFile t.2.2)
        | Except.error e => Except.error e
      else Except.error (Err.unexpectedStatus d.resp.status)

/-- Shallow embedding of `HttpFile.Size` (source lines 279-282). -/
def Size (f : HFile) : Int := f.len

/-- Transport whose probe response is 206 with
`Content-Range: bytes 0-0/12345`. -/
def trProbe : Nat → Resp :=
  fun _ => { plainResp 206 with contentRange := "bytes 0-0/12345" }

/-- The head of the list, if any, is not a space. -/
def HeadNotSp : List Char → Prop
  | [] => True
  | c :: _ => isSp c = false

/-- The head of the list, if any, is not a digit. -/
def HeadNotDigit : List Char → Prop
  | [] => True
  | c :: _ => isDigitCh c = false

theorem isSp_of_digit (c : Char) (h : isDigitCh c = true) : isSp c = false := by
  cases hs : isSp c
  · rfl
  · rcases (by simpa [isSp] using hs : c = ' ' ∨ c = '\t') with rfl | rfl
    · exact absurd h (by decide)
    · exact absurd h (by decide)

theorem digit_ne_sign (c : Char) (h : isDigitCh c = true) :
    c ≠ '-' ∧ c ≠ '+' := by
  constructor
  · rintro rfl; exact absurd h (by decide)
  · rintro rfl; exact absurd h (by decide)

theorem takeSp_spec (h : List Char) :
    h = (takeSp h).1 ++ (takeSp h).2 ∧ (∀ c ∈ (takeSp h).1, isSp c = true) ∧
      HeadNotSp (takeSp h).2 := by
  induction h with
  | nil =>
    refine ⟨rfl, ?_, trivial⟩
    intro c hc
    cases hc
  | cons c t ih =>
    by_cases hc : isSp c = true
    · simp only [takeSp, if_pos hc]
      obtain ⟨h1, h2, h3⟩ := ih
      refine ⟨by rw [List.cons_append]; exact congrArg (c :: ·) h1, ?_, h3⟩
      intro x hx
      rcases List.mem_cons.mp hx with rfl | hx
      · exact hc
      · exact h2 x hx
    · simp only [takeSp, if_neg hc]
      refine ⟨rfl, ?_, by simpa using hc⟩
      intro x hx
      cases hx

theorem takeSp_append (sp r : List Char) (hsp : ∀ c ∈ sp, isSp c = true)
    (hr : HeadNotSp r) : takeSp (sp ++ r) = (sp, r) := by
  induction sp with
  | nil =>
    cases r with
    | nil => rfl
    | cons c t =>
      have hc : ¬isSp c = true := by
        simpa using (hr : isSp c = false)
      simp only [List.nil_append, takeSp, if_neg hc]
  | cons c t ih =>
    have hc : isSp c = true := hsp c (List.mem_cons_self c t)
    have hstep : (c :: t) ++ r = c :: (t ++ r) := rfl
    rw [hstep, takeSp, if_pos hc]
    simp only [ih (fun x hx => hsp x (List.mem_cons_of_mem c hx))]

theorem digitsRun_none_head (h : List Char) (hn : digitsRun h = none) :
    HeadNotDigit h := by
  cases h with
  | nil => trivial
  | cons c t =>
    by_cases hc : isDigitCh c = true
    · rw [digitsRun, if_pos hc] at hn
      cases hdr : digitsRun t with
      | some p => rw [hdr] at hn; cases hn
      | none => rw [hdr] at hn; cases hn
    · show isDigitCh c = false
      simpa using hc

theorem digitsRun_none_of_head (h : List Char) (hn : HeadNotDigit h) :
    digitsRun h = none := by
  cases h with
  | nil => rfl
  | cons c t =>
    have hc : ¬isDigitCh c = true := by simpa using (hn : isDigitCh c = false)
    rw [digitsRun, if_neg hc]

theorem digitsRun_some :
    ∀ (h d r : List Char), digitsRun h = some (d, r) →
      h = d ++ r ∧ d ≠ [] ∧ (∀ c ∈ d, isDigitCh c = true) ∧ HeadNotDigit r := by
  intro h
  induction h with
  | nil => intro d r hd; cases hd
  | cons c t ih =>
    intro d r hd
    by_cases hc : isDigitCh c = true
    · rw [digitsRun, if_pos hc] at hd
      cases hdr : digitsRun t with
      | some p =>
        rw [hdr] at hd
        injection hd with hd
        obtain ⟨rfl, rfl⟩ := Prod.mk.injEq .. |>.mp hd
        obtain ⟨e1, e2, e3, e4⟩ := ih p.1 p.2 (by rw [hdr])
        refine ⟨by rw [List.cons_append, ← e1], by simp, ?_, e4⟩
        intro x hx
        rcases List.mem_cons.mp hx with rfl | hx
        · exact hc
        · exact e3 x hx
      | none =>
        rw [hdr] at hd
        injection hd with hd
        obtain ⟨rfl, rfl⟩ := Prod.mk.injEq .. |>.mp hd
        refine ⟨rfl, by simp, ?_, digitsRun_none_head t hdr⟩
        intro x hx
        rcases List.mem_cons.mp hx with rfl | hx
        · exact hc
        · cases hx
    · rw [digitsRun, if_neg hc] at hd
      cases hd

theorem digitsRun_append :
    ∀ (d r : List Char), d ≠ [] → (∀ c ∈ d, isDigitCh c = true) →
      HeadNotDigit r → digitsRun (d ++ r) = some (d, r) := by
  intro d
  induction d with
  | nil => intro r h; exact absurd rfl h
  | cons c t ih =>
    intro r _ hd hr
    have hc : isDigitCh c = true := hd c (List.mem_cons_self c t)
    cases t with
    | nil =>
      have hnone : digitsRun r = none := digitsRun_none_of_head r hr
      have hstep : [c] ++ r = c :: r := rfl
      rw [hstep, digitsRun, if_pos hc, hnone]
    | cons c2 t2 =>
      have ht : digitsRun ((c2 :: t2) ++ r) = some (c2 :: t2, r) :=
        ih r (by simp) (fun x hx => hd x (List.mem_cons_of_mem c hx)) hr
      have hstep : (c :: c2 :: t2) ++ r = c :: ((c2 :: t2) ++ r) := rfl
      rw [hstep, digitsRun, if_pos hc, ht]

theorem litStr_iff : ∀ (L h r : List Char), litStr L h = some r ↔ h = L ++ r := by
  intro L
  induction L with
  | nil =>
    intro h r
    simp [litStr]
  | cons a as ih =>
    intro h r
    cases h with
    | nil =>
      simp [litStr]
    | cons b bs =>
      by_cases hb : b = a
      · subst hb
        rw [litStr, if_pos rfl, ih bs r]
        simp
      · rw [litStr, if_neg hb]
        simp [hb]

theorem litStr_append (L r : List Char) : litStr L (L ++ r) = some r :=
  (litStr_iff L (L ++ r) r).mpr rfl

theorem litCh_iff (a : Char) (h r : List Char) :
    litCh a h = some r ↔ h = a :: r := by
  cases h with
  | nil => simp [litCh]
  | cons b bs =>
    by_cases hb : b = a
    · subst hb
      rw [litCh, if_pos rfl]
      simp
    · rw [litCh, if_neg hb]
      simp [hb]

theorem litCh_cons (a : Char) (r : List Char) : litCh a (a :: r) = some r :=
  (litCh_iff a (a :: r) r).mpr rfl

/-- Sign options of a `%d` token, tying the scanned value to the digit
run. -/
def SignOf (sg d : List Char) (v : Int) : Prop :=
  (sg = [] ∧ v = (decVal d : Int)) ∨ (sg = ['+'] ∧ v = (decVal d : Int)) ∨
    (sg = ['-'] ∧ v = -(decVal d : Int))

theorem headNotSp_token (sg d r : List Char) (hd : d ≠ [])
    (hdall : ∀ x ∈ d, isDigitCh x = true) (v : Int) (hsg : SignOf sg d v) :
    HeadNotSp (sg ++ (d ++ r)) := by
  rcases hsg with ⟨rfl, _⟩ | ⟨rfl, _⟩ | ⟨rfl, _⟩
  · cases d with
    | nil => exact absurd rfl hd
    | cons c t =>
      show isSp c = false
      exact isSp_of_digit c (hdall c (List.mem_cons_self c t))
  · show isSp '+' = false
    decide
  · show isSp '-' = false
    decide

theorem scanD_append (sp sg d r : List Char) (v : Int)
    (hsp : ∀ x ∈ sp, isSp x = true) (hd : d ≠ [])
    (hdall : ∀ x ∈ d, isDigitCh x = true) (hr : HeadNotDigit r)
    (hsg : SignOf sg d v) (hfit : fitsInt64 v) :
    scanD (sp ++ (sg ++ (d ++ r))) = some (v, r) := by
  have hX : HeadNotSp (sg ++ (d ++ r)) := headNotSp_token sg d r hd hdall v hsg
  rw [scanD, takeSp_append sp _ hsp hX]
  rcases hsg with ⟨rfl, rfl⟩ | ⟨rfl, rfl⟩ | ⟨rfl, rfl⟩
  · obtain ⟨c, t, rfl⟩ := List.exists_cons_of_ne_nil hd
    have hc : isDigitCh c = true := hdall c (List.mem_cons_self c t)
    obtain ⟨hne1, hne2⟩ := digit_ne_sign c hc
    have hdr : digitsRun (c :: (t ++ r)) = some (c :: t, r) := by
      simpa using digitsRun_append (c :: t) r (by simp) hdall hr
    simp [hne1, hne2, hdr, hfit]
  · have hdr := digitsRun_append d r hd hdall hr
    simp [hdr, hfit]
  · have hdr := digitsRun_append d r hd hdall hr
    simp [hdr, hfit]

theorem scanD_some (h : List Char) (v : Int) (r : List Char)
    (hs : scanD h = some (v, r)) :
    ∃ sp sg d, h = sp ++ (sg ++ (d ++ r)) ∧ (∀ x ∈ sp, isSp x = true) ∧
      d ≠ [] ∧ (∀ x ∈ d, isDigitCh x = true) ∧ HeadNotDigit r ∧
      SignOf sg d v ∧ fitsInt64 v := by
  obtain ⟨he, hall, hns⟩ := takeSp_spec h
  rw [scanD] at hs
  rcases htk : (takeSp h).2 with _ | ⟨c, t⟩
  · rw [htk] at hs; cases hs
  · rw [htk] at hs
    dsimp only at hs
    rw [htk] at he
    by_cases hc1 : c = '-'
    · subst hc1
      rw [if_pos rfl] at hs
      cases hdr : digitsRun t with
      | none => rw [hdr] at hs; cases hs
      | some p =>
        rw [hdr] at hs
        dsimp only at hs
        by_cases hfit : fitsInt64 (-(decVal p.1 : Int))
        · rw [if_pos hfit] at hs
          injection hs with hs
          obtain ⟨hv, hr⟩ := Prod.mk.injEq .. |>.mp hs
          subst hr
          obtain ⟨e1, e2, e3, e4⟩ := digitsRun_some t p.1 p.2 (by rw [hdr])
          exact ⟨(takeSp h).1, ['-'], p.1,
            he.trans (congrArg ((takeSp h).1 ++ ·) (by rw [e1]; rfl)),
            hall, e2, e3, e4, Or.inr (Or.inr ⟨rfl, hv.symm⟩), hv ▸ hfit⟩
        · rw [if_neg hfit] at hs
          cases hs
    · rw [if_neg hc1] at hs
      by_cases hc2 : c = '+'
      · subst hc2
        rw [if_pos rfl] at hs
        cases hdr : digitsRun t with
        | none => rw [hdr] at hs; cases hs
        | some p =>
          rw [hdr] at hs
          dsimp only at hs
          by_cases hfit : fitsInt64 ((decVal p.1 : Int))
          · rw [if_pos hfit] at hs
            injection hs with hs
            obtain ⟨hv, hr⟩ := Prod.mk.injEq .. |>.mp hs
            subst hr
            obtain ⟨e1, e2, e3, e4⟩ := digitsRun_some t p.1 p.2 (by rw [hdr])
            exact ⟨(takeSp h).1, ['+'], p.1,
              he.trans (congrArg ((takeSp h).1 ++ ·) (by rw [e1]; rfl)),
              hall, e2, e3, e4, Or.inr (Or.inl ⟨rfl, hv.symm⟩), hv ▸ hfit⟩
          · rw [if_neg hfit] at hs
            cases hs
      · rw [if_neg hc2] at hs
        cases hdr : digitsRun (c :: t) with
        | none => rw [hdr] at hs; cases hs
        | some p =>
          rw [hdr] at hs
          dsimp only at hs
          by_cases hfit : fitsInt64 ((decVal p.1 : Int))
          · rw [if_pos hfit] at hs
            injection hs with hs
            obtain ⟨hv, hr⟩ := Prod.mk.injEq .. |>.mp hs
            subst hr
            obtain ⟨e1, e2, e3, e4⟩ := digitsRun_some (c :: t) p.1 p.2 (by rw [hdr])
            exact ⟨(takeSp h).1, [], p.1,
              he.trans (congrArg ((takeSp h).1 ++ ·) (by rw [← e1]; rfl)),
              hall, e2, e3, e4, Or.inl ⟨rfl, hv.symm⟩, hv ▸ hfit⟩
          · rw [if_neg hfit] at hs
            cases hs

theorem fmtSp_some (h r : List Char) (hf : fmtSp h = some r) :
    (h = [] ∧ r = []) ∨
      (∃ sp, h = sp ++ r ∧ sp ≠ [] ∧ (∀ c ∈ sp, isSp c = true) ∧
        HeadNotSp r) := by
  obtain ⟨he, hall, hns⟩ := takeSp_spec h
  rw [fmtSp] at hf
  rcases htk : takeSp h with ⟨s, rest⟩
  rw [htk] at hf he hall hns
  cases s with
  | nil =>
    cases rest with
    | nil =>
      injection hf with hf
      exact Or.inl ⟨by simpa using he, hf.symm⟩
    | cons x xs => cases hf
  | cons x xs =>
    injection hf with hf
    subst hf
    exact Or.inr ⟨x :: xs, he, by simp, hall, hns⟩

theorem fmtSp_append (sp r : List Char) (hne : sp ≠ [])
    (hsp : ∀ c ∈ sp, isSp c = true) (hr : HeadNotSp r) :
    fmtSp (sp ++ r) = some r := by
  rw [fmtSp, takeSp_append sp r hsp hr]
  obtain ⟨c, t, rfl⟩ := List.exists_cons_of_ne_nil hne
  rfl

/-- The language accepted by `getContentRange`, as the amended claim
words it: the header starts with the literal `bytes`, at least one
space, then three decimal integers — each a maximal digit run with an
optional sign, optionally space-prefixed, whose signed value fits the
`int64` operands of the `Sscanf` call — separated by the literal
characters `-` and `/`; whatever follows the third integer is ignored,
provided it does not extend its digit run. -/
def ShapeCR (h : List Char) (a b c : Int) : Prop :=
  ∃ t1 t2 t3 rest,
    h = "bytes".toList ++ (t1 ++ '-' :: (t2 ++ '/' :: (t3 ++ rest))) ∧
    (∃ sp sg d, t1 = sp ++ (sg ++ d) ∧ sp ≠ [] ∧ (∀ x ∈ sp, isSp x = true) ∧
      d ≠ [] ∧ (∀ x ∈ d, isDigitCh x = true) ∧ SignOf sg d a) ∧
    (∃ sp sg d, t2 = sp ++ (sg ++ d) ∧ (∀ x ∈ sp, isSp x = true) ∧
      d ≠ [] ∧ (∀ x ∈ d, isDigitCh x = true) ∧ SignOf sg d b) ∧
    (∃ sp sg d, t3 = sp ++ (sg ++ d) ∧ (∀ x ∈ sp, isSp x = true) ∧
      d ≠ [] ∧ (∀ x ∈ d, isDigitCh x = true) ∧ SignOf sg d c) ∧
    HeadNotDigit rest ∧
    fitsInt64 a ∧ fitsInt64 b ∧ fitsInt64 c

theorem scanContentRange_iff (h : List Char) (a b c : Int) :
    scanContentRange h = some (a, b, c) ↔ ShapeCR h a b c := by
  constructor
  · intro hs
    rw [scanContentRange] at hs
    rcases Option.bind_eq_some.mp hs with ⟨h1, hl, hs⟩
    rcases Option.bind_eq_some.mp hs with ⟨h2, hf, hs⟩
    rcases Option.bind_eq_some.mp hs with ⟨p1, hd1, hs⟩
    rcases Option.bind_eq_some.mp hs with ⟨h3, hc1, hs⟩
    rcases Option.bind_eq_some.mp hs with ⟨p2, hd2, hs⟩
    rcases Option.bind_eq_some.mp hs with ⟨h4, hc2, hs⟩
    rcases Option.map_eq_some'.mp hs with ⟨p3, hd3, hv⟩
    obtain ⟨hva, hvb, hvc⟩ : p1.1 = a ∧ p2.1 = b ∧ p3.1 = c := by
      have := Prod.mk.injEq .. |>.mp hv
      exact ⟨this.1, (Prod.mk.injEq .. |>.mp this.2).1,
        (Prod.mk.injEq .. |>.mp this.2).2⟩
    have he1 : h = "bytes".toList ++ h1 := (litStr_iff _ h h1).mp hl
    rcases fmtSp_some h1 h2 hf with ⟨rfl, rfl⟩ | ⟨spf, he2, hfne, hfall, _⟩
    · cases hd1
    · obtain ⟨sp1, sg1, d1, he3, hall1, hdne1, hdall1, _, hsg1, hfit1⟩ :=
        scanD_some h2 p1.1 p1.2 (by rw [hd1])
      have he4 : p1.2 = '-' :: h3 := (litCh_iff '-' p1.2 h3).mp hc1
      obtain ⟨sp2, sg2, d2, he5, hall2, hdne2, hdall2, _, hsg2, hfit2⟩ :=
        scanD_some h3 p2.1 p2.2 (by rw [hd2])
      have he6 : p2.2 = '/' :: h4 := (litCh_iff '/' p2.2 h4).mp hc2
      obtain ⟨sp3, sg3, d3, he7, hall3, hdne3, hdall3, hrest, hsg3, hfit3⟩ :=
        scanD_some h4 p3.1 p3.2 (by rw [hd3])
      subst hva hvb hvc
      refine ⟨spf ++ (sp1 ++ (sg1 ++ d1)), sp2 ++ (sg2 ++ d2),
        sp3 ++ (sg3 ++ d3), p3.2, ?_, ?_, ?_, ?_, hrest, hfit1, hfit2, hfit3⟩
      · rw [he1, he2, he3, he4, he5, he6, he7]
        simp [List.append_assoc]
      · refine ⟨spf ++ sp1, sg1, d1, by simp [List.append_assoc], ?_, ?_,
          hdne1, hdall1, hsg1⟩
        · exact fun hcon => hfne (List.append_eq_nil.mp hcon).1
        · intro x hx
          rcases List.mem_append.mp hx with hx | hx
          · exact hfall x hx
          · exact hall1 x hx
      · exact ⟨sp2, sg2, d2, rfl, hall2, hdne2, hdall2, hsg2⟩
      · exact ⟨sp3, sg3, d3, rfl, hall3, hdne3, hdall3, hsg3⟩
  · rintro ⟨t1, t2, t3, rest, rfl,
      ⟨sp1, sg1, d1, rfl, hne1, hall1, hdne1, hdall1, hsg1⟩,
      ⟨sp2, sg2, d2, rfl, hall2, hdne2, hdall2, hsg2⟩,
      ⟨sp3, sg3, d3, rfl, hall3, hdne3, hdall3, hsg3⟩, hrest, hfa, hfb, hfc⟩
    rw [scanContentRange, litStr_append, Option.some_bind]
    have hstep1 : fmtSp (sp1 ++ (sg1 ++ d1) ++ '-' ::
        (sp2 ++ (sg2 ++ d2) ++ '/' :: (sp3 ++ (sg3 ++ d3) ++ rest))) =
        some (sg1 ++ (d1 ++ '-' ::
          (sp2 ++ (sg2 ++ d2) ++ '/' :: (sp3 ++ (sg3 ++ d3) ++ rest)))) := by
      rw [show sp1 ++ (sg1 ++ d1) ++ '-' ::
          (sp2 ++ (sg2 ++ d2) ++ '/' :: (sp3 ++ (sg3 ++ d3) ++ rest)) =
          sp1 ++ (sg1 ++ (d1 ++ '-' ::
            (sp2 ++ (sg2 ++ d2) ++ '/' :: (sp3 ++ (sg3 ++ d3) ++ rest))))
        by simp [List.append_assoc]]
      exact fmtSp_append sp1 _ hne1 hall1
        (headNotSp_token sg1 d1 _ hdne1 hdall1 a hsg1)
    rw [hstep1, Option.some_bind]
    have hstep2 : scanD (sg1 ++ (d1 ++ '-' ::
        (sp2 ++ (sg2 ++ d2) ++ '/' :: (sp3 ++ (sg3 ++ d3) ++ rest)))) =
        some (a, '-' :: (sp2 ++ (sg2 ++ d2) ++ '/' ::
          (sp3 ++ (sg3 ++ d3) ++ rest))) := by
      have := scanD_append [] sg1 d1
        ('-' :: (sp2 ++ (sg2 ++ d2) ++ '/' :: (sp3 ++ (sg3 ++ d3) ++ rest)))
        a (by intro x hx; cases hx) hdne1 hdall1
        (by show isDigitCh '-' = false; decide) hsg1 hfa
      simpa using this
    rw [hstep2, Option.some_bind, litCh_cons, Option.some_bind]
    have hstep3 : scanD (sp2 ++ (sg2 ++ d2) ++ '/' ::
        (sp3 ++ (sg3 ++ d3) ++ rest)) =
        some (b, '/' :: (sp3 ++ (sg3 ++ d3) ++ rest)) := by
      have := scanD_append sp2 sg2 d2
        ('/' :: (sp3 ++ (sg3 ++ d3) ++ rest)) b hall2 hdne2 hdall2
        (by show isDigitCh '/' = false; decide) hsg2 hfb
      simpa [List.append_assoc] using this
    rw [hstep3, Option.some_bind, litCh_cons, Option.some_bind]
    have hstep4 : scanD (sp3 ++ (sg3 ++ d3) ++ rest) = some (c, rest) := by
      have := scanD_append sp3 sg3 d3 rest c hall3 hdne3 hdall3 hrest hsg3 hfc
      simpa [List.append_assoc] using this
    rw [hstep4, Option.map_some']

theorem getContentRange_ok_iff (hdr : String) (a b c : Int) :
    getContentRange hdr = Except.ok (a, b, c) ↔ ShapeCR hdr.toList a b c := by
  rw [← scanContentRange_iff hdr.toList a b c, getContentRange]
  cases hsc : scanContentRange hdr.toList with
  | some t => simp
  | none => simp

/-- Claim C9, counterexample: `getContentRange` accepts the header
`"bytes 0-0/12345 x"`, which does not conform to the exact
`bytes %d-%d/%d` shape — `fmt.Sscanf` stops after converting its three
operands and ignores the trailing `" x"`. -/
theorem c9_cex :
    getContentRange "bytes 0-0/12345 x" = Except.ok (0, 0, 12345) := by
  rfl

/-- Claim C9 as amended: `getContentRange` accepts exactly the headers
that begin with the `bytes %d-%d/%d` shape — the literal `bytes`, at
least one space, then three decimal integers (optionally signed and
space-prefixed, each fitting the `int64` operands scanned into, since
`fmt.Sscanf` reports a conversion error on overflow) separated by the
literal characters `-` and `/` — with any trailing remainder that does
not extend the last digit run ignored; every other header is a fatal
parse error, e.g. a header truncated after the `/`, or one whose total
`9999999999999999999` exceeds the largest `int64`.  A 206 probe response
with `Content-Range: bytes 0-0/12345` makes the opened stream report
`Size() = 12345`. -/
theorem c9_content_range :
    (∀ (hdr : String) (a b c : Int),
      getContentRange hdr = Except.ok (a, b, c) ↔ ShapeCR hdr.toList a b c) ∧
    (OpenHttpFile trProbe 5 "u").map Size = Except.ok 12345 ∧
    getContentRange "bytes 0-0/" = Except.error Err.scanErr ∧
    getContentRange "bytes 0-0/9999999999999999999" =
      Except.error Err.scanErr :=
  ⟨getContentRange_ok_iff, rfl, rfl, rfl⟩

end Httpclient
